import Mathlib

/-!
A verification development for the reflow flow-graph engine.

The repository sources at hand are the `syntax` package's evaluation tests
and the `reflowlet` server.  The flow-graph data model, the digest scheme and
the evaluator are exercised by those tests but their implementation is not
among the sources, so they are modelled here from the specification
(definitions marked `Modelled from the spec:`).  The reflowlet definitions
are translated directly from `reflowlet/reflowlet.go`.
-/

namespace Reflow

/-- Operation kinds of flow nodes (spec §3, `Op`): `Intern`, `Extern`,
`Exec`, `Coerce`, `K`, `Val` and the fan-out/fan-in combinators. -/
inductive Op where
  | Intern
  | Extern
  | Exec
  | Coerce
  | K
  | Val
  | Map
  | Collect
  | GroupBy
deriving DecidableEq, Repr

/-- Declared resource requirements of a node (spec §3, `Resources`):
CPU count, memory bytes, disk bytes. -/
structure Resources where
  cpu : Nat
  memory : Nat
  disk : Nat
deriving DecidableEq, Repr

/-- One command-argument slot of an `Exec` node (`reflow.ExecArg` as used by
`TestExec`): `out` marks an output slot, `index` is the dependency or output
index substituted at that position of the command. -/
structure ExecArg where
  out : Bool
  index : Nat
deriving DecidableEq, Repr

/-- Per-node evaluation state (spec §3, `State`):
`Init → Running → Done/Error`. -/
inductive FState where
  | Init
  | Running
  | Done
  | Error
deriving DecidableEq, Repr

/-- Resolved results of nodes (spec §3, Value): scalars, composite
structures, and references to file-like objects. -/
inductive Value where
  | unit
  | int (n : Int)
  | str (s : String)
  | file (path : String)
  | tuple (vs : List Value)
  | list (vs : List Value)

mutual

/-- A tagged, length-delimited (hence collision-free) rendering of a literal
value, used as the normalized digest parameter of a `Val` node. -/
def valueEnc : Value → String
  | .unit => "u"
  | .int n => "i" ++ toString n
  | .str s => "s" ++ toString s.length ++ ":" ++ s
  | .file p => "f" ++ toString p.length ++ ":" ++ p
  | .tuple vs => "t" ++ valueEncL vs
  | .list vs => "l" ++ valueEncL vs

/-- Length-delimited rendering of a list of values. -/
def valueEncL : List Value → String
  | [] => "e"
  | v :: vs => "c" ++ toString (valueEnc v).length ++ ":" ++ valueEnc v ++ valueEncL vs

end

/-- A normalized literal parameter entering a node's digest (spec §4.1). -/
inductive Param where
  | s (v : String)
  | n (v : Nat)
  | b (v : Bool)
  | arg (v : ExecArg)
  | res (v : Resources)
deriving DecidableEq, Repr

/-- The literal attributes carried by a flow node: the fields of
`reflow.Flow` that `TestExec` inspects (`Image`, `Resources`, `Cmd`,
`Argmap`, `OutputIsDir`, `URL`), the literal value of a `Val` node, and the
node's evaluation state. -/
structure Attrs where
  image : String
  resources : Resources
  cmd : String
  argmap : List ExecArg
  outputIsDir : List Bool
  url : String
  val : Value
  state : FState

/-- Modelled from the spec: a flow node (spec §3) — the `reflow.Flow`
type is not among the sources.  A node is its operation kind, the ordered
list of dependency nodes (`Deps`), and its literal attributes. -/
inductive Flow where
  | mk (op : Op) (deps : List Flow) (attrs : Attrs)

/-- The operation kind of a node. -/
def Flow.op : Flow → Op
  | .mk o _ _ => o

/-- The ordered dependencies of a node. -/
def Flow.deps : Flow → List Flow
  | .mk _ d _ => d

/-- The literal attributes of a node. -/
def Flow.attrs : Flow → Attrs
  | .mk _ _ a => a

/-- Modelled from the spec (§4.1, §3 `Digest`): the normalized literal
parameters entering a node's digest, per operation kind — URL for
`Intern`/`Extern`; image, resources, command template and argument map for
`Exec`; the literal for `Val`; none for the pure combinators. -/
def flowParams : Op → Attrs → List Param
  | .Intern, a => [.s a.url]
  | .Extern, a => [.s a.url]
  | .Exec, a =>
    .s a.image :: .res a.resources :: .s a.cmd :: .n a.argmap.length ::
      (a.argmap.map Param.arg ++ a.outputIsDir.map Param.b)
  | .Val, a => [.s (valueEnc a.val)]
  | _, _ => []

/-- Modelled from the spec: the content digest (spec §4.1) — the digest
implementation is not among the sources.  Per the contract it is a pure
function of the operation kind, the normalized literal parameters, and the
dependency digests in order; it is modelled as the injective tree of exactly
those inputs (the spec stipulates no false collisions within scope, §8). -/
inductive Digest where
  | node (op : Op) (pars : List Param) (deps : List Digest)

mutual

/-- Decidable equality of digests. -/
def Digest.deq : (a b : Digest) → Decidable (a = b)
  | .node o1 p1 d1, .node o2 p2 d2 =>
    match decEq o1 o2, decEq p1 p2, Digest.deqL d1 d2 with
    | isTrue h1, isTrue h2, isTrue h3 => isTrue (by rw [h1, h2, h3])
    | isFalse h1, _, _ => isFalse (by simp [h1])
    | _, isFalse h2, _ => isFalse (by simp [h2])
    | _, _, isFalse h3 => isFalse (by simp [h3])

/-- Decidable equality of digest lists. -/
def Digest.deqL : (a b : List Digest) → Decidable (a = b)
  | [], [] => isTrue rfl
  | [], _ :: _ => isFalse (by simp)
  | _ :: _, [] => isFalse (by simp)
  | x :: xs, y :: ys =>
    match Digest.deq x y, Digest.deqL xs ys with
    | isTrue h1, isTrue h2 => isTrue (by rw [h1, h2])
    | isFalse h1, _ => isFalse (by simp [h1])
    | _, isFalse h2 => isFalse (by simp [h2])

end

instance : DecidableEq Digest := Digest.deq

mutual

/-- Modelled from the spec (§4.1, §3 `Digest`): the digest of a node —
derived deterministically from `Op`, the normalized parameters, and the
digests of `Deps` in order. -/
def digest : Flow → Digest
  | .mk op deps attrs => .node op (flowParams op attrs) (digestL deps)

/-- The digests of a dependency list, in order. -/
def digestL : List Flow → List Digest
  | [] => []
  | f :: fs => digest f :: digestL fs

end

/-! ## Flow graph construction (spec §4.2) -/

/-- One gibibyte, the `GiB` unit of the surface language. -/
def GiB : Nat := 2 ^ 30

/-- Attributes of a node that carries no literals; constructed nodes start
in state `Init`. -/
def defAttrs : Attrs := ⟨"", ⟨0, 0, 0⟩, "", [], [], "", .unit, .Init⟩

/-- Modelled from the spec (§4.2): the `Intern` node constructor (the front
end's `file(url)`): no dependencies, the URL as its literal parameter. -/
def internF (url : String) : Flow :=
  .mk .Intern [] ⟨"", ⟨0, 0, 0⟩, "", [], [], url, .unit, .Init⟩

/-- Modelled from the spec (§4.2): the `Coerce` node constructor — a pure
type-level transformation of its single dependency. -/
def coerceF (d : Flow) : Flow := .mk .Coerce [d] defAttrs

/-- Modelled from the spec (§4.2): the `K` (continuation) node constructor
over its single dependency. -/
def kF (d : Flow) : Flow := .mk .K [d] defAttrs

/-- Modelled from the spec (§4.2): the `Val` node constructor — a literal,
already-resolved value; no dependencies. -/
def valF (v : Value) : Flow :=
  .mk .Val [] ⟨"", ⟨0, 0, 0⟩, "", [], [], "", v, .Init⟩

/-- A fragment of an exec command template: literal text, an interpolated
input (dependency index), or an interpolated output (output index). -/
inductive Frag where
  | lit (s : String)
  | inp (i : Nat)
  | outp (i : Nat)

/-- Modelled from the spec (§5 ordering): the command string built from an
exec template — each interpolated fragment becomes a placeholder, in source
order (`TestExec` expects `Cmd` with `%s` placeholders). -/
def interpCmd : List Frag → String
  | [] => ""
  | .lit s :: r => s ++ interpCmd r
  | .inp _ :: r => "%s" ++ interpCmd r
  | .outp _ :: r => "%s" ++ interpCmd r

/-- Modelled from the spec (§5 ordering): the argument map built from an
exec template — one `ExecArg` per interpolated fragment, in source order. -/
def interpArgs : List Frag → List ExecArg
  | [] => []
  | .lit _ :: r => interpArgs r
  | .inp i :: r => ⟨false, i⟩ :: interpArgs r
  | .outp i :: r => ⟨true, i⟩ :: interpArgs r

/-- Modelled from the spec (§4.2): the `Exec` node constructor: image,
declared resources, interpolated command template, output kinds and
dependencies; construction only links nodes. -/
def execF (image : String) (res : Resources) (template : List Frag)
    (outDirs : List Bool) (deps : List Flow) : Flow :=
  .mk .Exec deps
    ⟨image, res, interpCmd template, interpArgs template, outDirs, "", .unit, .Init⟩

/-- The command template of the exec expression in `TestExec`:
`cat {{file("s3://blah")}} > {{out}}` inside the raw string literal. -/
def execS3Template : List Frag :=
  [.lit "\n\t\t\tcat ", .inp 0, .lit " > ", .outp 0, .lit "\n\t\t"]

/-- Modelled from the spec: the dependency chain the front end constructs
for the interpolated `file("s3://blah")` of `TestExec` — a `Coerce` of a `K`
(the delayed binding) of a `Coerce` of the `Intern` node. -/
def execS3Dep : Flow := coerceF (kF (coerceF (internF "s3://blah")))

/-- Modelled from the spec: the `Exec` node of `TestExec`: image `ubuntu`,
32 CPUs, 32 GiB of memory, no disk, the interpolated template, one
ordinary (non-directory) file output. -/
def execS3Exec : Flow :=
  execF "ubuntu" ⟨32, 32 * GiB, 0⟩ execS3Template [false] [execS3Dep]

/-- Modelled from the spec: the whole flow value returned for the exec
expression of `TestExec` — a `Coerce` of the `Exec` node. -/
def execS3Flow : Flow := coerceF execS3Exec

mutual

/-- All nodes of a flow graph: the node itself and, recursively, the nodes
of its dependencies. -/
def nodesOf : Flow → List Flow
  | .mk op deps attrs => .mk op deps attrs :: nodesOfL deps

/-- All nodes of a list of flow graphs. -/
def nodesOfL : List Flow → List Flow
  | [] => []
  | f :: fs => nodesOf f ++ nodesOfL fs

end

/-! ## Evaluation (spec §4.3, §4.4, §4.5) -/

/-- The bookkeeping state of one evaluation run: the in-run memoization
cache mapping digests to resolved values (spec §4.4) and the ordered log of
units of work submitted to the executor (the executor's record of
submissions). -/
structure EvalState where
  cache : List (Digest × Value)
  subs : List Digest

/-- First-match lookup in the memoization cache. -/
def lookupD (d : Digest) : List (Digest × Value) → Option Value
  | [] => none
  | p :: rest => if p.1 = d then some p.2 else lookupD d rest

/-- Whether an operation is a unit of work dispatched to an executor
(spec §4.5: `Intern`, `Extern` and `Exec` are run by an executor; `Val` and
the combinators are pure). -/
def Op.isWork : Op → Bool
  | .Intern => true
  | .Extern => true
  | .Exec => true
  | _ => false

/-- Modelled from the spec (§4.3, §3): the value of a pure node from its
attributes and its resolved dependency values: `Val` is its literal;
`Coerce` and `K` pass their single dependency's value through (the `K`
binding function is abstracted as the identity continuation); the
collection combinators collect. -/
def combine : Op → Attrs → List Value → Value
  | .Val, a, _ => a.val
  | .Coerce, _, vs => vs.headD .unit
  | .K, _, vs => vs.headD .unit
  | _, _, vs => .list vs

/-- Modelled from the spec (§4.3 steps 2-3, §4.4): resolving one node whose
dependencies are already resolved.  A pure node combines dependency values
with no cache or executor interaction; a work node is looked up in the
cache by digest — a hit resolves with no dispatch, a miss dispatches the
unit of work to the executor `ex`, records the submission, and stores the
reported output under the node's digest. -/
def evalStep (ex : Digest → Value) (f : Flow) (r : List Value × EvalState) :
    Value × EvalState :=
  if f.op.isWork then
    match lookupD (digest f) r.2.cache with
    | some v => (v, r.2)
    | none =>
      (ex (digest f),
        ⟨r.2.cache ++ [(digest f, ex (digest f))], r.2.subs ++ [digest f]⟩)
  else (combine f.op f.attrs r.1, r.2)

mutual

/-- Modelled from the spec (§4.3): evaluation of a flow graph against an
always-succeeding executor `ex` (`evaluate(root)`): dependencies are
resolved first, in dependency order, then the node itself is resolved by
`evalStep`. -/
def evalF (ex : Digest → Value) : Flow → EvalState → Value × EvalState
  | .mk op deps attrs, s => evalStep ex (.mk op deps attrs) (evalL ex deps s)

/-- Evaluation of a dependency list, left to right, threading the state. -/
def evalL (ex : Digest → Value) : List Flow → EvalState → List Value × EvalState
  | [], s => ([], s)
  | f :: fs, s =>
    let r := evalF ex f s
    let rs := evalL ex fs r.2
    (r.1 :: rs.1, rs.2)

end

/-- `e` occurs as a node of the graph `f`: it is `f` itself or occurs in
one of its dependencies. -/
inductive OccursIn : Flow → Flow → Prop where
  | here (f : Flow) : OccursIn f f
  | there {e d : Flow} {op : Op} {deps : List Flow} {attrs : Attrs}
      (hd : d ∈ deps) (h : OccursIn e d) : OccursIn e (.mk op deps attrs)

/-- The evaluation-state invariant: the submission log lists exactly the
cache keys in order (each submission stored exactly one result), the log
has no duplicates, and every cached value is the executor's reported
output for its digest. -/
def Inv (ex : Digest → Value) (s : EvalState) : Prop :=
  s.subs = s.cache.map Prod.fst ∧ s.subs.Nodup ∧ ∀ p ∈ s.cache, p.2 = ex p.1

/-- An always-succeeding executor that reports one output file per
submitted unit of work (the successful no-op executor of the spec's
scenario 2). -/
def nopEx : Digest → Value := fun _ => .file "output"

/-! ## The surface-language front end (spec §6, §7) -/

/-- A source position (line, column), as in the positioned errors of
`TestTypeErr`. -/
structure Pos where
  line : Nat
  col : Nat
deriving DecidableEq, Repr

/-- Patterns of the surface language: identifier binders, wildcard, tuple
and list patterns (as exercised by `TestEvalSimple` and `TestPat`). -/
inductive Pat where
  | bindP (x : String)
  | wildP
  | tupleP (ps : List Pat)
  | listPat (ps : List Pat)

/-- Modelled from the spec (§7): evaluation-time errors are ordinary error
values, never process aborts — a failed pattern match (`errMatch`), a
user-level panic, or an unresolved identifier. -/
inductive EvalErr where
  | matchErr
  | panicErr (msg : String)
  | undefErr (x : String)
deriving DecidableEq, Repr

/-- The user-visible message of an evaluation error (`TestEvalErr` expects
exactly `"match error"` and `"panic: panic!"`). -/
def EvalErr.message : EvalErr → String
  | .matchErr => "match error"
  | .panicErr m => "panic: " ++ m
  | .undefErr x => "identifier " ++ x ++ " not defined"

/-- Surface expressions sufficient for the error-path tests: literals,
list and tuple constructors, identifiers, `val` pattern bindings carrying
their source position, and `panic`. -/
inductive SExpr where
  | lit (v : Value)
  | listE (es : List SExpr)
  | tupleE (es : List SExpr)
  | ident (x : String)
  | valDecl (pos : Pos) (p : Pat) (rhs : SExpr) (body : SExpr)
  | panicE (pos : Pos) (msg : String)

/-- Value-environment lookup. -/
def lookupEnv (x : String) : List (String × Value) → Option Value
  | [] => none
  | p :: rest => if p.1 = x then some p.2 else lookupEnv x rest

mutual

/-- Modelled from the spec (§7): matching a pattern against a value;
`none` is a match failure, surfaced as `matchErr`, never a crash. -/
def matchPat : Pat → Value → Option (List (String × Value))
  | .bindP x, v => some [(x, v)]
  | .wildP, _ => some []
  | .tupleP ps, .tuple vs => matchPats ps vs
  | .listPat ps, .list vs => matchPats ps vs
  | _, _ => none

/-- Matching a pattern list against a value list; a length mismatch is a
match failure. -/
def matchPats : List Pat → List Value → Option (List (String × Value))
  | [], [] => some []
  | p :: ps, v :: vs =>
    match matchPat p v with
    | none => none
    | some e1 =>
      match matchPats ps vs with
      | none => none
      | some e2 => some (e1 ++ e2)
  | _, _ => none

end

mutual

/-- Modelled from the spec (§7): the module evaluator — a total function
into `Except`, so work errors (match failure, panic) are returned as error
values and never crash the process. -/
def evalS (env : List (String × Value)) : SExpr → Except EvalErr Value
  | .lit v => .ok v
  | .listE es =>
    match evalSL env es with
    | .error e => .error e
    | .ok vs => .ok (.list vs)
  | .tupleE es =>
    match evalSL env es with
    | .error e => .error e
    | .ok vs => .ok (.tuple vs)
  | .ident x =>
    match lookupEnv x env with
    | some v => .ok v
    | none => .error (.undefErr x)
  | .valDecl _ p rhs body =>
    match evalS env rhs with
    | .error e => .error e
    | .ok v =>
      match matchPat p v with
      | none => .error .matchErr
      | some binds => evalS (binds ++ env) body
  | .panicE _ m => .error (.panicErr m)

/-- Evaluation of an expression list, left to right. -/
def evalSL (env : List (String × Value)) : List SExpr → Except EvalErr (List Value)
  | [] => .ok []
  | e :: es =>
    match evalS env e with
    | .error err => .error err
    | .ok v =>
      match evalSL env es with
      | .error err => .error err
      | .ok vs => .ok (v :: vs)

end

/-- Types of the surface language, at the shape level needed by the
type-error tests. -/
inductive Ty where
  | intT
  | strT
  | fileT
  | unitT
  | tupleT (ts : List Ty)
  | listT (t : Ty)

mutual

/-- The type of a literal value. -/
def tyOf : Value → Ty
  | .unit => .unitT
  | .int _ => .intT
  | .str _ => .strT
  | .file _ => .fileT
  | .tuple vs => .tupleT (tyOfL vs)
  | .list vs => .listT ((tyOfL vs).headD .unitT)

/-- The types of a list of literal values. -/
def tyOfL : List Value → List Ty
  | [] => []
  | v :: vs => tyOf v :: tyOfL vs

end

/-- Type-environment lookup. -/
def lookupTyEnv (x : String) : List (String × Ty) → Option Ty
  | [] => none
  | p :: rest => if p.1 = x then some p.2 else lookupTyEnv x rest

mutual

/-- Modelled from the spec (§7 construction errors): checking a pattern
against a type at module-open time; a tuple pattern whose size disagrees
with the tuple type is the positioned error of `TestTypeErr`
(`expected tuple of size N, got M`). -/
def checkPat (pos : Pos) : Pat → Ty → Except (Pos × String) (List (String × Ty))
  | .bindP x, t => .ok [(x, t)]
  | .wildP, _ => .ok []
  | .tupleP ps, .tupleT ts =>
    if ps.length = ts.length then checkPats pos ps ts
    else .error (pos, "expected tuple of size " ++ toString ts.length ++
      ", got " ++ toString ps.length)
  | .listPat ps, .listT t => checkPats pos ps (ps.map fun _ => t)
  | _, _ => .error (pos, "pattern cannot match this type")

/-- Checking a pattern list against a type list. -/
def checkPats (pos : Pos) :
    List Pat → List Ty → Except (Pos × String) (List (String × Ty))
  | [], [] => .ok []
  | p :: ps, t :: ts =>
    match checkPat pos p t with
    | .error e => .error e
    | .ok e1 =>
      match checkPats pos ps ts with
      | .error e => .error e
      | .ok e2 => .ok (e1 ++ e2)
  | _, _ => .error (pos, "pattern arity mismatch")

end

mutual

/-- Modelled from the spec (§7 construction errors): type inference at
module-open time — every type error is positioned and fatal. -/
def inferS (env : List (String × Ty)) : SExpr → Except (Pos × String) Ty
  | .lit v => .ok (tyOf v)
  | .listE es =>
    match inferSL env es with
    | .error e => .error e
    | .ok ts => .ok (.listT (ts.headD .unitT))
  | .tupleE es =>
    match inferSL env es with
    | .error e => .error e
    | .ok ts => .ok (.tupleT ts)
  | .ident x =>
    match lookupTyEnv x env with
    | some t => .ok t
    | none => .error (⟨0, 0⟩, "identifier " ++ x ++ " not defined")
  | .valDecl pos p rhs body =>
    match inferS env rhs with
    | .error e => .error e
    | .ok t =>
      match checkPat pos p t with
      | .error e => .error e
      | .ok binds => inferS (binds ++ env) body
  | .panicE _ _ => .ok .unitT

/-- Inference over an expression list. -/
def inferSL (env : List (String × Ty)) :
    List SExpr → Except (Pos × String) (List Ty)
  | [] => .ok []
  | e :: es =>
    match inferS env e with
    | .error err => .error err
    | .ok t =>
      match inferSL env es with
      | .error err => .error err
      | .ok ts => .ok (t :: ts)

end

/-- Modelled from the spec (§7): opening a module type-checks it first; a
type error is surfaced immediately, positioned, and no evaluation is
attempted.  The second component counts evaluation runs — 0 when
evaluation was never attempted. -/
def openModule (m : SExpr) :
    Except (Pos × String) (Except EvalErr Value) × Nat :=
  match inferS [] m with
  | .error e => (.error e, 0)
  | .ok _ => (.ok (evalS [] m), 1)

/-- The program of `testdata/err2.rf`: a user-level `panic("panic!")`. -/
def panicProg : SExpr := .panicE ⟨1, 1⟩ "panic!"

/-- The failed-match program of `TestPat`: `{val [x, y] = [1]; 123}`. -/
def matchProg : SExpr :=
  .valDecl ⟨1, 2⟩ (.listPat [.bindP "x", .bindP "y"])
    (.listE [.lit (.int 1)]) (.lit (.int 123))

/-- The tuple-size-mismatch program of `testdata/typerr1.rf`: a `val`
binding of a 2-tuple pattern against a 3-tuple, at line 2, column 16. -/
def typerrProg : SExpr :=
  .valDecl ⟨2, 16⟩ (.tupleP [.bindP "x", .bindP "y"])
    (.tupleE [.lit (.int 1), .lit (.int 2), .lit (.int 3)]) (.lit (.int 123))

/-! ## The reflowlet server (reflowlet/reflowlet.go) -/

/-- The idle-shutdown expiry of `ListenAndServe`: 10 minutes (all times in
minutes since startup). -/
def expiryMinutes : Nat := 10

/-- The idle-check period of `ListenAndServe`: one minute. -/
def periodMinutes : Nat := 1

/-- The time of the `k`-th idle check: the watcher first sleeps for the
expiry, then checks once per period. -/
def checkTime (k : Nat) : Nat := expiryMinutes + k * periodMinutes

/-- The idle-shutdown watcher loop of `ListenAndServe` (lines 141-158),
within a horizon of `n` checks starting from check index `k`: the first
check at which the pool has been idle for at least the expiry
(`p.StopIfIdleFor(expiry)`) terminates the process (`log.Fatalf`).
`idleFor t` is the pool's idle duration at time `t`. -/
def firstIdleStop (idleFor : Nat → Nat) : Nat → Nat → Option Nat
  | _, 0 => none
  | k, n + 1 =>
    if expiryMinutes ≤ idleFor (checkTime k) then some (checkTime k)
    else firstIdleStop idleFor (k + 1) n

/-- The idle-shutdown time of the reflowlet within a horizon of `n`
checks: when `EC2Cluster` is set the watcher goroutine runs; otherwise it
is never started and no idle shutdown ever occurs. -/
def shutdownTime (idleFor : Nat → Nat) (ec2Cluster : Bool) (n : Nat) :
    Option Nat :=
  if ec2Cluster then firstIdleStop idleFor 0 n else none

/-- TLS client-authentication policies (the `tls.ClientAuthType` values
relevant to the reflowlet). -/
inductive ClientAuthPolicy where
  | NoClientCert
  | RequireAndVerifyClientCert
deriving DecidableEq, Repr

/-- A TLS server configuration: its certificates and its client
authentication policy. -/
structure TLSServerConfig where
  certificates : List String
  clientAuth : ClientAuthPolicy
deriving DecidableEq, Repr

/-- How the server finally listens: plain HTTP, or HTTPS with a TLS
configuration and an HTTP/2 bound on concurrent streams. -/
inductive ServePlan where
  | http
  | https (cfg : TLSServerConfig) (maxStreams : Nat)
deriving DecidableEq, Repr

/-- The number of concurrent HTTP/2 streams the reflowlet supports
(`maxConcurrentStreams`, reflowlet.go line 33). -/
def maxConcurrentStreams : Nat := 20000

/-- The serving decision at the end of `ListenAndServe` (lines 167-178):
with `Insecure` it serves plain HTTP; otherwise it overrides the client
authentication of the configured TLS server config to
`RequireAndVerifyClientCert` and serves HTTPS with HTTP/2 configured for
`maxConcurrentStreams` concurrent streams. -/
def servePlan (insecure : Bool) (serverConfig : TLSServerConfig) : ServePlan :=
  if insecure then .http
  else
    .https ⟨serverConfig.certificates, .RequireAndVerifyClientCert⟩
      maxConcurrentStreams

/-- C1: for the `TestExec` exec expression (image `ubuntu`, `mem := 32*GiB`,
`cpu := 32`, one interpolated `file("s3://blah")` input) construction yields
a deferred flow whose `Exec` node has image `ubuntu`, declared resources
exactly CPU 32, memory `32*2^30` bytes, disk 0, and a single dependency
chain that passes through a `K` node and terminates in an `Intern` node
with URL `s3://blah` and zero dependencies. -/
theorem exec_graph_shape :
    execS3Flow.deps = [execS3Exec]
    ∧ execS3Exec.op = .Exec
    ∧ execS3Exec.attrs.image = "ubuntu"
    ∧ execS3Exec.attrs.resources = ⟨32, 32 * 2 ^ 30, 0⟩
    ∧ execS3Exec.deps = [coerceF (kF (coerceF (internF "s3://blah")))]
    ∧ (coerceF (kF (coerceF (internF "s3://blah")))).op = .Coerce
    ∧ (kF (coerceF (internF "s3://blah"))).op = .K
    ∧ (kF (coerceF (internF "s3://blah"))).deps = [coerceF (internF "s3://blah")]
    ∧ (coerceF (internF "s3://blah")).deps = [internF "s3://blah"]
    ∧ (internF "s3://blah").op = .Intern
    ∧ (internF "s3://blah").attrs.url = "s3://blah"
    ∧ (internF "s3://blah").deps = [] :=
  ⟨rfl, rfl, rfl, rfl, rfl, rfl, rfl, rfl, rfl, rfl, rfl, rfl⟩

/-- C4: construction executes nothing: the exec expression of `TestExec`
evaluates to a deferred flow value whose outermost operation is `Coerce`,
and every one of the six nodes of the constructed graph is still in state
`Init` — no executor was involved and no command was run during
construction; nodes were only linked. -/
theorem construction_is_deferred :
    execS3Flow.op = .Coerce
    ∧ (nodesOf execS3Flow).map (fun n => n.attrs.state) =
      [.Init, .Init, .Init, .Init, .Init, .Init] :=
  ⟨rfl, rfl⟩

/-- C6: command-argument interpolation preserves declared dependency order
exactly: for any exec template interpolating one input then one output
around arbitrary literal fragments, the constructed `Exec` node's `Cmd`
keeps the placeholders in source order and its `Argmap` is exactly
`[{Index: 0}, {Out: true, Index: 0}]`; in particular the `TestExec` node
has `Cmd = "\n\t\t\tcat %s > %s\n\t\t"` and exactly that argument map. -/
theorem interpolation_preserves_order (s1 s2 s3 image : String)
    (res : Resources) (outDirs : List Bool) (deps : List Flow) :
    (execF image res [.lit s1, .inp 0, .lit s2, .outp 0, .lit s3] outDirs deps).attrs.cmd
      = s1 ++ "%s" ++ s2 ++ "%s" ++ s3
    ∧ (execF image res [.lit s1, .inp 0, .lit s2, .outp 0, .lit s3] outDirs deps).attrs.argmap
      = [⟨false, 0⟩, ⟨true, 0⟩]
    ∧ execS3Exec.attrs.cmd = "\n\t\t\tcat %s > %s\n\t\t"
    ∧ execS3Exec.attrs.argmap = [⟨false, 0⟩, ⟨true, 0⟩] := by
  refine ⟨?_, rfl, rfl, rfl⟩
  show s1 ++ ("%s" ++ (s2 ++ ("%s" ++ (s3 ++ "")))) = s1 ++ "%s" ++ s2 ++ "%s" ++ s3
  simp [String.append_empty, String.append_assoc]

/-- Digests of a list are the mapped digests. -/
theorem digestL_eq_map (fs : List Flow) : digestL fs = fs.map digest := by
  induction fs with
  | nil => rfl
  | cons f fs ih => simp [digestL, ih]

/-- `Param.arg` is injective. -/
theorem param_arg_injective : Function.Injective Param.arg := by
  intro a b h
  cases h
  rfl

/-- C3: digests are deterministic and collision-free: two nodes have equal
digests exactly when they agree on operation kind, on every normalized
literal parameter, and on the digests of their dependencies in order; and
for `Exec` nodes the normalized parameters agree exactly when the image,
resources, command template, argument map and output-directory flags all
agree — so subgraphs differing in any such literal, or in any dependency
digest, have different digests, while structurally identical ones share one. -/
theorem digest_determinism :
    (∀ a b : Flow, digest a = digest b ↔
      (a.op = b.op ∧ flowParams a.op a.attrs = flowParams b.op b.attrs ∧
        a.deps.map digest = b.deps.map digest))
    ∧ (∀ x y : Attrs, flowParams .Exec x = flowParams .Exec y ↔
      (x.image = y.image ∧ x.resources = y.resources ∧ x.cmd = y.cmd ∧
        x.argmap = y.argmap ∧ x.outputIsDir = y.outputIsDir)) := by
  constructor
  · intro a b
    cases a with
    | mk op1 deps1 attrs1 =>
      cases b with
      | mk op2 deps2 attrs2 =>
        simp [digest, Flow.op, Flow.deps, Flow.attrs, Digest.node.injEq,
          digestL_eq_map]
  · intro x y
    constructor
    · intro h
      simp only [flowParams, List.cons.injEq, Param.s.injEq, Param.res.injEq,
        Param.n.injEq] at h
      obtain ⟨hi, hr, hc, hl, htail⟩ := h
      have hlen : (x.argmap.map Param.arg).length = (y.argmap.map Param.arg).length := by
        simp [hl]
      obtain ⟨hargs, houts⟩ := List.append_inj htail hlen
      refine ⟨hi, hr, hc, ?_, ?_⟩
      · exact List.map_injective_iff.mpr param_arg_injective hargs
      · have hb : Function.Injective Param.b := by
          intro a b h
          cases h
          rfl
        exact List.map_injective_iff.mpr hb houts
    · rintro ⟨hi, hr, hc, ha, ho⟩
      simp [flowParams, hi, hr, hc, ha, ho]

/-- A hit in the first part of an appended cache persists. -/
theorem lookupD_append_of_some {d : Digest} {v : Value}
    {c1 : List (Digest × Value)} (h : lookupD d c1 = some v)
    (c2 : List (Digest × Value)) : lookupD d (c1 ++ c2) = some v := by
  induction c1 with
  | nil => simp [lookupD] at h
  | cons p rest ih =>
    by_cases hp : p.1 = d
    · simp only [List.cons_append, lookupD, if_pos hp] at h ⊢
      exact h
    · simp only [List.cons_append, lookupD, if_neg hp] at h ⊢
      exact ih h

/-- Appending an entry for an absent key makes it found. -/
theorem lookupD_append_last {d : Digest} {c : List (Digest × Value)}
    (h : lookupD d c = none) (v : Value) :
    lookupD d (c ++ [(d, v)]) = some v := by
  induction c with
  | nil => simp [lookupD]
  | cons p rest ih =>
    by_cases hp : p.1 = d
    · simp [lookupD, hp] at h
    · simp only [List.cons_append, lookupD, if_neg hp] at h ⊢
      exact ih h

/-- A found entry is in the cache. -/
theorem lookupD_mem {d : Digest} {v : Value} :
    ∀ {c : List (Digest × Value)}, lookupD d c = some v → (d, v) ∈ c := by
  intro c
  induction c with
  | nil => intro h; simp [lookupD] at h
  | cons p rest ih =>
    intro h
    by_cases hp : p.1 = d
    · simp only [lookupD, if_pos hp] at h
      have hp2 : p = (d, v) := by
        cases p
        simp only [Option.some.injEq] at h
        simp_all
      subst hp2
      exact List.mem_cons_self _ _
    · simp only [lookupD, if_neg hp] at h
      exact List.mem_cons_of_mem _ (ih h)

/-- An absent key is not among the cache keys. -/
theorem lookupD_none_not_mem {d : Digest} {c : List (Digest × Value)}
    (h : lookupD d c = none) : d ∉ c.map Prod.fst := by
  induction c with
  | nil => simp
  | cons p rest ih =>
    by_cases hp : p.1 = d
    · simp [lookupD, hp] at h
    · simp only [lookupD, if_neg hp] at h
      simp only [List.map_cons, List.mem_cons]
      rintro (h1 | h1)
      · exact hp h1.symm
      · exact ih h h1

/-- Resolving one node never drops a cached result. -/
theorem evalStep_keep {ex : Digest → Value} {f : Flow}
    {r : List Value × EvalState} {d : Digest} {v : Value}
    (h : lookupD d r.2.cache = some v) :
    lookupD d ((evalStep ex f r).2).cache = some v := by
  unfold evalStep
  split
  · split
    · exact h
    · exact lookupD_append_of_some h _
  · exact h

/-- Resolving one node preserves the evaluation-state invariant. -/
theorem evalStep_inv {ex : Digest → Value} {f : Flow}
    {r : List Value × EvalState} (h : Inv ex r.2) :
    Inv ex ((evalStep ex f r).2) := by
  obtain ⟨h1, h2, h3⟩ := h
  unfold evalStep
  split
  · split
    · exact ⟨h1, h2, h3⟩
    · next hnone =>
      refine ⟨?_, ?_, ?_⟩
      · show r.2.subs ++ [digest f] =
          (r.2.cache ++ [(digest f, ex (digest f))]).map Prod.fst
        simp [h1]
      · show (r.2.subs ++ [digest f]).Nodup
        have hd : digest f ∉ r.2.subs := by
          rw [h1]
          exact lookupD_none_not_mem hnone
        simp [List.nodup_append, h2, hd]
      · intro p hp
        rcases List.mem_append.mp hp with hm | hm
        · exact h3 p hm
        · simp only [List.mem_singleton] at hm
          subst hm
          rfl
  · exact ⟨h1, h2, h3⟩

/-- After resolving a work node, its digest is cached. -/
theorem evalStep_cover {ex : Digest → Value} {f : Flow}
    {r : List Value × EvalState} (hw : f.op.isWork = true) :
    ∃ v, lookupD (digest f) ((evalStep ex f r).2).cache = some v := by
  unfold evalStep
  split
  · split
    · next v hv => exact ⟨v, hv⟩
    · next hnone => exact ⟨ex (digest f), lookupD_append_last hnone _⟩
  · next hfalse => exact absurd hw hfalse

/-- Evaluation never drops a cached result (node form). -/
theorem evalF_keep (ex : Digest → Value) :
    ∀ (f : Flow) (s : EvalState) (d : Digest) (v : Value),
      lookupD d s.cache = some v →
      lookupD d ((evalF ex f s).2).cache = some v := by
  refine evalF.induct ex
    (fun f s => ∀ d v, lookupD d s.cache = some v →
      lookupD d ((evalF ex f s).2).cache = some v)
    (fun fs s => ∀ d v, lookupD d s.cache = some v →
      lookupD d ((evalL ex fs s).2).cache = some v)
    ?_ ?_ ?_
  · intro op deps attrs s ih d v h
    exact evalStep_keep (ih d v h)
  · intro s d v h
    exact h
  · intro f fs s r ih1 ih2 d v h
    exact ih2 d v (ih1 d v h)

/-- Evaluation never drops a cached result (dependency-list form). -/
theorem evalL_keep (ex : Digest → Value) :
    ∀ (fs : List Flow) (s : EvalState) (d : Digest) (v : Value),
      lookupD d s.cache = some v →
      lookupD d ((evalL ex fs s).2).cache = some v := by
  intro fs
  induction fs with
  | nil => intro s d v h; exact h
  | cons f fs ih =>
    intro s d v h
    exact ih _ d v (evalF_keep ex f s d v h)

/-- Evaluation preserves the evaluation-state invariant. -/
theorem evalF_inv (ex : Digest → Value) :
    ∀ (f : Flow) (s : EvalState), Inv ex s → Inv ex ((evalF ex f s).2) := by
  refine evalF.induct ex
    (fun f s => Inv ex s → Inv ex ((evalF ex f s).2))
    (fun fs s => Inv ex s → Inv ex ((evalL ex fs s).2))
    ?_ ?_ ?_
  · intro op deps attrs s ih h
    exact evalStep_inv (ih h)
  · intro s h
    exact h
  · intro f fs s r ih1 ih2 h
    exact ih2 (ih1 h)

/-- After evaluating a graph, every work node occurring in it has a cached
result. -/
theorem evalF_cover (ex : Digest → Value) :
    ∀ (f : Flow) (s : EvalState) (e : Flow),
      OccursIn e f → e.op.isWork = true →
      ∃ v, lookupD (digest e) ((evalF ex f s).2).cache = some v := by
  refine evalF.induct ex
    (fun f s => ∀ e, OccursIn e f → e.op.isWork = true →
      ∃ v, lookupD (digest e) ((evalF ex f s).2).cache = some v)
    (fun fs s => ∀ e d, d ∈ fs → OccursIn e d → e.op.isWork = true →
      ∃ v, lookupD (digest e) ((evalL ex fs s).2).cache = some v)
    ?_ ?_ ?_
  · intro op deps attrs s ih e hocc hw
    cases hocc with
    | here => exact evalStep_cover hw
    | there hd h =>
      obtain ⟨v, hv⟩ := ih e _ hd h hw
      exact ⟨v, evalStep_keep hv⟩
  · intro s e d hd
    simp at hd
  · intro f fs s r ih1 ih2 e d hd hocc hw
    rcases List.mem_cons.mp hd with h | h
    · subst h
      obtain ⟨v, hv⟩ := ih1 e hocc hw
      exact ⟨v, evalL_keep ex fs _ _ v hv⟩
    · exact ih2 e d h hocc hw

/-- C5: evaluating a graph that is a single literal `Val` node holding the
integer 1 returns that literal value immediately: for every executor and
every starting evaluation state, the result is the integer 1 and the state
is returned unchanged — zero executor dispatches and no cache
interaction. -/
theorem val_node_resolves_immediately (ex : Digest → Value) (s : EvalState) :
    evalF ex (valF (.int 1)) s = (.int 1, s) := rfl

/-- C2: for every graph `g` and every `Exec` node `e` occurring in it,
evaluating `g` from a fresh state with an always-succeeding executor `ex`
resolves `e` to `Done` with exactly the executor's reported output for
`e`'s digest, and the submission log records exactly one submitted unit of
work for that node. -/
theorem exec_evaluated_once (ex : Digest → Value) (g e : Flow)
    (hocc : OccursIn e g) (hexec : e.op = .Exec) :
    lookupD (digest e) (((evalF ex g ⟨[], []⟩).2).cache) = some (ex (digest e))
    ∧ ((evalF ex g ⟨[], []⟩).2).subs.count (digest e) = 1 := by
  have hw : e.op.isWork = true := by rw [hexec]; rfl
  obtain ⟨v, hv⟩ := evalF_cover ex g ⟨[], []⟩ e hocc hw
  obtain ⟨h1, h2, h3⟩ : Inv ex ((evalF ex g ⟨[], []⟩).2) := by
    apply evalF_inv
    exact ⟨rfl, List.nodup_nil, by intro p hp; simp at hp⟩
  have hvv : v = ex (digest e) := h3 _ (lookupD_mem hv)
  constructor
  · rw [hvv] at hv
    exact hv
  · have hmem : digest e ∈ ((evalF ex g ⟨[], []⟩).2).subs := by
      rw [h1]
      exact List.mem_map_of_mem Prod.fst (lookupD_mem hv)
    exact List.count_eq_one_of_mem h2 hmem

/-- Witness for C2 at the `TestExec` graph and the successful no-op
executor: the graph's `Exec` node occurs in the constructed flow and is of
kind `Exec`; the conclusion is obtained from the theorem at exactly this
input. -/
theorem exec_evaluated_once_witness :
    OccursIn execS3Exec execS3Flow
    ∧ Flow.op execS3Exec = .Exec
    ∧ (lookupD (digest execS3Exec) (((evalF nopEx execS3Flow ⟨[], []⟩).2).cache)
        = some (nopEx (digest execS3Exec))
      ∧ ((evalF nopEx execS3Flow ⟨[], []⟩).2).subs.count (digest execS3Exec) = 1) := by
  have hocc : OccursIn execS3Exec execS3Flow :=
    OccursIn.there (List.mem_singleton.mpr rfl) (OccursIn.here _)
  exact ⟨hocc, rfl, exec_evaluated_once nopEx execS3Flow execS3Exec hocc rfl⟩

/-- C7: evaluation errors never crash the process but are returned as
ordinary error values: the evaluator is a total function into `Except`; a
user-level panic in a program evaluates — also through module
instantiation (`openModule`) — to the error value whose message is
`"panic: panic!"`, and a failed pattern match evaluates to the match error
whose message is `"match error"`. -/
theorem eval_errors_are_values :
    evalS [] panicProg = .error (.panicErr "panic!")
    ∧ (EvalErr.panicErr "panic!").message = "panic: panic!"
    ∧ evalS [] matchProg = .error .matchErr
    ∧ EvalErr.matchErr.message = "match error"
    ∧ openModule panicProg = (.ok (.error (.panicErr "panic!")), 1)
    ∧ openModule matchProg = (.ok (.error .matchErr), 1) :=
  ⟨rfl, rfl, rfl, rfl, rfl, rfl⟩

/-- C8: a type error is surfaced at module open, positioned, before any
value is produced: whenever inference fails, `openModule` returns exactly
that positioned error and the evaluation-run counter is 0 — no evaluation
is attempted. -/
theorem type_error_surfaced_before_eval (m : SExpr) (e : Pos × String)
    (h : inferS [] m = .error e) :
    openModule m = (.error e, 0) := by
  unfold openModule
  rw [h]

/-- Witness for C8 at the tuple-size-mismatch program of `TestTypeErr`:
inference fails with the positioned size error, and by the theorem the
module open returns it with no evaluation attempted. -/
theorem type_error_surfaced_before_eval_witness :
    inferS [] typerrProg = .error (⟨2, 16⟩, "expected tuple of size 3, got 2")
    ∧ openModule typerrProg =
      (.error (⟨2, 16⟩, "expected tuple of size 3, got 2"), 0) :=
  ⟨rfl, type_error_surfaced_before_eval typerrProg _ rfl⟩

/-- A result of the idle watcher is at a check time no earlier than the
start index, the pool is idle past expiry there, and at every earlier
check from the start index on it was not. -/
theorem firstIdleStop_spec (idleFor : Nat → Nat) :
    ∀ (n k t : Nat), firstIdleStop idleFor k n = some t →
      ∃ j, k ≤ j ∧ t = checkTime j ∧ expiryMinutes ≤ idleFor t ∧
        ∀ i, k ≤ i → checkTime i < t → idleFor (checkTime i) < expiryMinutes := by
  intro n
  induction n with
  | zero =>
    intro k t h
    simp [firstIdleStop] at h
  | succ n ih =>
    intro k t h
    rw [firstIdleStop] at h
    by_cases hc : expiryMinutes ≤ idleFor (checkTime k)
    · rw [if_pos hc] at h
      cases h
      refine ⟨k, le_refl k, rfl, hc, ?_⟩
      intro i hki hlt
      exfalso
      have hmono : checkTime k ≤ checkTime i := by
        simp only [checkTime, periodMinutes, Nat.mul_one]
        omega
      omega
    · rw [if_neg hc] at h
      obtain ⟨j, hkj, ht, hidle, hmin⟩ := ih (k + 1) t h
      refine ⟨j, by omega, ht, hidle, ?_⟩
      intro i hki hlt
      by_cases hik : i = k
      · subst hik
        omega
      · exact hmin i (by omega) hlt

/-- If some check within the horizon sees the pool idle past expiry, the
watcher stops at or before that check. -/
theorem firstIdleStop_complete (idleFor : Nat → Nat) :
    ∀ (n k0 k : Nat), k0 ≤ k → k < k0 + n →
      expiryMinutes ≤ idleFor (checkTime k) →
      ∃ u, firstIdleStop idleFor k0 n = some u ∧ u ≤ checkTime k := by
  intro n
  induction n with
  | zero =>
    intro k0 k h1 h2 h3
    exfalso
    omega
  | succ n ih =>
    intro k0 k h1 h2 h3
    rw [firstIdleStop]
    by_cases hc : expiryMinutes ≤ idleFor (checkTime k0)
    · rw [if_pos hc]
      refine ⟨checkTime k0, rfl, ?_⟩
      simp only [checkTime, periodMinutes, Nat.mul_one]
      omega
    · rw [if_neg hc]
      have hk : k0 ≠ k := fun he => hc (he ▸ h3)
      exact ih (k0 + 1) k (by omega) (by omega) h3

/-- C9: the idle-shutdown policy of `ListenAndServe`: an idle shutdown can
only happen when `EC2Cluster` is set (with it unset, `shutdownTime` is
never `some`, so no idle shutdown ever occurs); never during the first 10
minutes after startup; only at one of the once-per-minute check times;
only when the pool has by then been idle for at least the 10-minute
expiry; and at the first such check — at every earlier check the pool had
not yet been idle that long.  Conversely, when `EC2Cluster` is set and
some check within the horizon sees the pool idle past expiry, the process
does terminate, no later than that check. -/
theorem idle_shutdown_policy (idleFor : Nat → Nat) (ec2Cluster : Bool)
    (n t k : Nat) :
    (shutdownTime idleFor ec2Cluster n = some t →
      ec2Cluster = true
      ∧ expiryMinutes ≤ t
      ∧ (∃ j, t = checkTime j)
      ∧ expiryMinutes ≤ idleFor t
      ∧ ∀ i, checkTime i < t → idleFor (checkTime i) < expiryMinutes)
    ∧ (expiryMinutes ≤ idleFor (checkTime k) → k < n →
      ∃ u, shutdownTime idleFor true n = some u ∧ u ≤ checkTime k) := by
  constructor
  · intro h
    cases ec2Cluster with
    | false => simp [shutdownTime] at h
    | true =>
      simp only [shutdownTime, if_true] at h
      obtain ⟨j, _, ht, hidle, hmin⟩ := firstIdleStop_spec idleFor n 0 t h
      refine ⟨rfl, ?_, ⟨j, ht⟩, hidle, ?_⟩
      · subst ht
        simp only [checkTime, periodMinutes, Nat.mul_one, expiryMinutes]
        omega
      · intro i hlt
        exact hmin i (Nat.zero_le i) hlt
  · intro hidle hk
    simp only [shutdownTime, if_true]
    exact firstIdleStop_complete idleFor n 0 k (Nat.zero_le k) (by omega) hidle

/-- Witness for C9: with a pool idle from startup onward (`idleFor t = t`)
and a horizon of one check, the reflowlet shuts down at minute 10, the
first check time; both directions of the policy follow by the theorem at
exactly this input. -/
theorem idle_shutdown_policy_witness :
    shutdownTime (fun t => t) true 1 = some 10
    ∧ expiryMinutes ≤ (fun t => t) (checkTime 0)
    ∧ 0 < 1
    ∧ (true = true
      ∧ expiryMinutes ≤ 10
      ∧ (∃ j, 10 = checkTime j)
      ∧ expiryMinutes ≤ (fun t => t) 10
      ∧ ∀ i, checkTime i < 10 → (fun t => t) (checkTime i) < expiryMinutes)
    ∧ (∃ u, shutdownTime (fun t => t) true 1 = some u ∧ u ≤ checkTime 0) :=
  ⟨rfl, by decide, by decide,
    (idle_shutdown_policy (fun t => t) true 1 10 0).1 rfl,
    (idle_shutdown_policy (fun t => t) true 1 10 0).2 (by decide) (by decide)⟩

/-- C10: `ListenAndServe` serves plain HTTP exactly when `Insecure` is
set; otherwise it serves HTTPS with client certificates required and
verified (`tls.RequireAndVerifyClientCert`) and HTTP/2 configured with at
most 20000 concurrent streams. -/
theorem serve_plan_spec (insecure : Bool) (sc : TLSServerConfig) :
    (servePlan insecure sc = .http ↔ insecure = true)
    ∧ servePlan false sc =
      .https ⟨sc.certificates, .RequireAndVerifyClientCert⟩ maxConcurrentStreams
    ∧ maxConcurrentStreams = 20000 := by
  refine ⟨?_, rfl, rfl⟩
  cases insecure
  · simp [servePlan]
  · simp [servePlan]

end Reflow
